import Mathlib

/-!
# Verification of the SolarEdge modbus → ChargeHQ exporter

Shallow embedding of the repository's three Rust source files
(`src/main.rs`, `src/modbus/mod.rs`, `src/modbus/types.rs`).

Modelling conventions:
* 16-bit register words are `Nat` (the `u16` range `< 65536` appears as a
  hypothesis where it matters), bytes are `Nat` (`< 256` by construction).
* Rust `f64` arithmetic is modelled exactly over `ℚ`; a separate predicate
  `RepresentsFiniteF64` captures whether a value lies inside the finite
  range of an IEEE-754 binary64 (the spec declares all snapshot fields to
  be IEEE-754 doubles).
* Fallible Rust code is embedded with `Option`/`Except`.  A panic
  (`unwrap`/`expect`/out-of-bounds index, which aborts the process) is
  distinguished from an error return propagated with the `?` operator by
  the two constructors of `Failure`.
* The modbus TCP session is an oracle `Session`: `connectOk` says whether
  `tcp::connect_slave` succeeds and `read a l` gives the reply of
  `read_holding_registers(a, l)` (`none` = transport failure).
* Rust `String` values are modelled as their UTF-8 byte content
  (`List Nat`), which is exactly how Rust represents them.
-/

/-- Embeds `to_be_bytes` (`main.rs:56`, `types.rs:5`): each `u16` word
contributes its two bytes in big-endian order, concatenated in word order. -/
def to_be_bytes (data : List Nat) : List Nat :=
  data.flatMap fun v => [v / 256 % 256, v % 256]

/-- Spec-side inverse of the codec: re-pair consecutive bytes big-endian
(used to state the round-trip law of §8 of the spec). -/
def fromBePairs : List Nat → List Nat
  | b1 :: b2 :: rest => (b1 * 256 + b2) :: fromBePairs rest
  | _ => []

/-- Reinterpretation of a `u16` bit pattern as a two's-complement `i16`
(Rust's `data[0] as i16`). -/
def toI16 (w : Nat) : Int :=
  if w < 32768 then (w : Int) else (w : Int) - 65536

/-- Embeds `impl DecodableRegister<i16> for i16` (`main.rs:93`,
`types.rs:51`): `data[0] as i16`.  The index `data[0]` panics on an empty
vector, embedded as `none`. -/
def decodeI16 : List Nat → Option Int
  | [] => none
  | w :: _ => some (toI16 w)

/-- Embeds `impl DecodableRegister<u32> for u32` (`main.rs:99`,
`types.rs:57`): `u32::from_be_bytes(<[u8; 4]>::try_from(to_be_bytes(data)).unwrap())`.
The conversion to `[u8; 4]` succeeds exactly when the byte vector has
length 4; the `unwrap` panic is embedded as `none`. -/
def decodeU32 (data : List Nat) : Option Nat :=
  match to_be_bytes data with
  | [a, b, c, d] => some (((a * 256 + b) * 256 + c) * 256 + d)
  | _ => none

/-- Lower bound of the second byte of a 3-byte UTF-8 sequence (depends on
the leading byte, per RFC 3629 as enforced by Rust's `String::from_utf8`). -/
def lo3 (b : Nat) : Nat := if b = 0xE0 then 0xA0 else 0x80

/-- Exclusive upper bound of the second byte of a 3-byte UTF-8 sequence. -/
def hi3 (b : Nat) : Nat := if b = 0xED then 0xA0 else 0xC0

/-- Lower bound of the second byte of a 4-byte UTF-8 sequence. -/
def lo4 (b : Nat) : Nat := if b = 0xF0 then 0x90 else 0x80

/-- Exclusive upper bound of the second byte of a 4-byte UTF-8 sequence. -/
def hi4 (b : Nat) : Nat := if b = 0xF4 then 0x90 else 0xC0

/-- UTF-8 validation and decoding exactly as Rust's `String::from_utf8`
performs it (RFC 3629: no overlong forms, no surrogates, maximum
`U+10FFFF`), returning the decoded scalar values.  The `fuel` argument is
only a structural-recursion bound; `utf8Decode` instantiates it with the
length of the input. -/
def utf8DecodeAux : Nat → List Nat → Option (List Nat)
  | _, [] => some []
  | 0, _ :: _ => none
  | fuel + 1, b :: rest =>
    if b < 0x80 then
      (utf8DecodeAux fuel rest).map fun cs => b :: cs
    else if b < 0xC2 then none
    else if b < 0xE0 then
      match rest with
      | b2 :: r =>
        if 0x80 ≤ b2 ∧ b2 < 0xC0 then
          (utf8DecodeAux fuel r).map fun cs => ((b - 0xC0) * 0x40 + (b2 - 0x80)) :: cs
        else none
      | [] => none
    else if b < 0xF0 then
      match rest with
      | b2 :: b3 :: r =>
        if (lo3 b ≤ b2 ∧ b2 < hi3 b) ∧ (0x80 ≤ b3 ∧ b3 < 0xC0) then
          (utf8DecodeAux fuel r).map fun cs =>
            ((b - 0xE0) * 0x1000 + (b2 - 0x80) * 0x40 + (b3 - 0x80)) :: cs
        else none
      | _ => none
    else if b < 0xF5 then
      match rest with
      | b2 :: b3 :: b4 :: r =>
        if (lo4 b ≤ b2 ∧ b2 < hi4 b) ∧ (0x80 ≤ b3 ∧ b3 < 0xC0) ∧ (0x80 ≤ b4 ∧ b4 < 0xC0) then
          (utf8DecodeAux fuel r).map fun cs =>
            ((b - 0xF0) * 0x40000 + (b2 - 0x80) * 0x1000 + (b3 - 0x80) * 0x40 + (b4 - 0x80)) :: cs
        else none
      | _ => none
    else none

/-- UTF-8 validation/decoding of a byte sequence (see `utf8DecodeAux`). -/
def utf8Decode (bs : List Nat) : Option (List Nat) := utf8DecodeAux bs.length bs

/-- Standard UTF-8 encoding of one Unicode scalar value. -/
def utf8EncodeChar (c : Nat) : List Nat :=
  if c < 0x80 then [c]
  else if c < 0x800 then [0xC0 + c / 0x40, 0x80 + c % 0x40]
  else if c < 0x10000 then [0xE0 + c / 0x1000, 0x80 + c / 0x40 % 0x40, 0x80 + c % 0x40]
  else [0xF0 + c / 0x40000, 0x80 + c / 0x1000 % 0x40, 0x80 + c / 0x40 % 0x40, 0x80 + c % 0x40]

/-- A Unicode scalar value: below `0x110000` and not a surrogate. -/
def IsScalar (c : Nat) : Prop := c < 0x110000 ∧ (c < 0xD800 ∨ 0xE000 ≤ c)

/-- Spec-side characterisation of a valid UTF-8 byte sequence, following
the spec's words ("interprets the remainder as UTF-8 text"): some sequence
of Unicode scalar values encodes to exactly these bytes. -/
def ValidUtf8 (bs : List Nat) : Prop :=
  ∃ cs : List Nat, (∀ c ∈ cs, IsScalar c) ∧ (cs.map utf8EncodeChar).flatten = bs

/-- Embeds `impl DecodableRegister<String> for String` (`main.rs:82`,
`types.rs:40`): expand the words to big-endian bytes, discard every zero
byte, then `String::from_utf8(..).expect(..)` — which succeeds (returning a
`String` whose byte content is exactly the filtered bytes) iff the bytes
are valid UTF-8, and otherwise panics, embedded as `none`. -/
def decodeString (data : List Nat) : Option (List Nat) :=
  match utf8Decode ((to_be_bytes data).filter fun b => b != 0) with
  | some _ => some ((to_be_bytes data).filter fun b => b != 0)
  | none => none

/-- Recoverable error return (Rust `?` on a `Result`) versus process abort
(Rust `unwrap`/`expect`/indexing panic). -/
inductive Failure where
  | err
  | panicked
deriving DecidableEq, Repr

/-- The modbus TCP session, as the oracle the cycle consumes: whether the
connection attempt succeeds, and the reply of each
`read_holding_registers(address, count)` call (`none` = transport failure). -/
structure Session where
  connectOk : Bool
  read : Nat → Nat → Option (List Nat)

/-- Embeds `read_register::<i16>` (`main.rs:105`, `types.rs:63`): one read
of `length` words at `address`, the `Result` unwrapped (transport failure ⇒
panic), then `i16::decode` (decode failure ⇒ panic). -/
def read_register_i16 (ctx : Session) (address length : Nat) : Except Failure Int :=
  match ctx.read address length with
  | none => Except.error Failure.panicked
  | some data =>
    match decodeI16 data with
    | none => Except.error Failure.panicked
    | some v => Except.ok v

/-- Embeds `read_register::<u32>` (`main.rs:105`, `types.rs:63`). -/
def read_register_u32 (ctx : Session) (address length : Nat) : Except Failure Nat :=
  match ctx.read address length with
  | none => Except.error Failure.panicked
  | some data =>
    match decodeU32 data with
    | none => Except.error Failure.panicked
    | some v => Except.ok v

/-- The snapshot produced by one polling cycle (`main.rs:30`,
`types.rs:12`); Rust `f64` fields modelled exactly over `ℚ`. -/
structure SiteMeters where
  consumption_kw : ℚ
  net_import_kw : ℚ
  production_kw : ℚ
  exported_kwh : ℚ
  imported_kwh : ℚ
deriving DecidableEq, Repr

deriving instance DecidableEq for Except

/-- Embeds `send_pv_data` (`main.rs:116`) up to the construction of the
`SiteMeters` snapshot — the HTTP hand-off to ChargeHQ is the excluded
transmission collaborator (spec §1).  `tcp::connect_slave(..)?` is a
recoverable error return; each register read unwraps (panics) on failure.
`modbus/mod.rs`'s `read_modbus_data` builds the identical snapshot from
the identical read sequence and constants. -/
def send_pv_data (s : Session) : Except Failure SiteMeters :=
  if s.connectOk then
    match read_register_i16 s 40083 1 with      -- I_AC_Power
    | Except.error e => Except.error e
    | Except.ok ac_power =>
    match read_register_i16 s 40084 1 with      -- I_AC_Power_SF
    | Except.error e => Except.error e
    | Except.ok ac_power_scale =>
    let current_ac_power : ℚ := (ac_power : ℚ) * (10 : ℚ) ^ ac_power_scale
    let production_kw : ℚ := current_ac_power / 1000
    match read_register_u32 s 40226 2 with      -- M_Exported
    | Except.error e => Except.error e
    | Except.ok exported_energy =>
    match read_register_u32 s 40234 2 with      -- M_Imported
    | Except.error e => Except.error e
    | Except.ok imported_energy =>
    match read_register_i16 s 40242 1 with      -- M_Energy_W_SF
    | Except.error e => Except.error e
    | Except.ok energy_scale =>
    let exported_energy_wh : ℚ := (exported_energy : ℚ) * (10 : ℚ) ^ energy_scale
    let imported_energy_wh : ℚ := (imported_energy : ℚ) * (10 : ℚ) ^ energy_scale
    let exported_energy_kwh : ℚ := exported_energy_wh / 1000
    let imported_energy_kwh : ℚ := imported_energy_wh / 1000
    match read_register_i16 s 40206 1 with      -- M_AC_Power
    | Except.error e => Except.error e
    | Except.ok meter_power =>
    match read_register_i16 s 40210 1 with      -- M_AC_Power_SF
    | Except.error e => Except.error e
    | Except.ok meter_power_sf =>
    let meter_power_w : ℚ := (meter_power : ℚ) * (10 : ℚ) ^ meter_power_sf
    let meter_power_kw : ℚ := -meter_power_w / 1000
    let total_consumption : ℚ := production_kw + meter_power_kw
    Except.ok
      { consumption_kw := total_consumption
        net_import_kw := meter_power_kw
        production_kw := production_kw
        exported_kwh := exported_energy_kwh
        imported_kwh := imported_energy_kwh }
  else Except.error Failure.err

/-- The largest finite IEEE-754 binary64 value, `(2^53 - 1) · 2^971`.
The spec (§6) declares every snapshot field to be an IEEE-754 double and
(§4.4) notes that extreme exponents overflow to `Infinity`; a value whose
exact magnitude exceeds this bound cannot be held by a finite `f64`. -/
def f64MaxFinite : ℚ := (2 ^ 53 - 1) * 2 ^ 971

/-- The exact value fits in the finite range of an IEEE-754 binary64. -/
def RepresentsFiniteF64 (q : ℚ) : Prop := |q| ≤ f64MaxFinite

/-- The error taxonomy of spec §4.3/§7.  Modelled from the spec: the code
has no `ReadError` type at all (`read_register` unwraps instead of
returning `Result<T, ReadError>`); this type exists only to state what the
spec asserts and compare it with the code. -/
inductive ReadError where
  | transport
  | decode
deriving DecidableEq, Repr

/-- Modelled from the spec: §4.3's operation
`read<T>(session, spec) -> Result<T, ReadError>` at `T = i16`, which
propagates transport failures as `ReadError::Transport` and decode
failures as `ReadError::Decode`.  Missing from the code, where
`read_register` unwraps both into panics. -/
def readSpecI16 (ctx : Session) (address length : Nat) : Except ReadError Int :=
  match ctx.read address length with
  | none => Except.error ReadError.transport
  | some data =>
    match decodeI16 data with
    | none => Except.error ReadError.decode
    | some v => Except.ok v

/-- Observable steps of one iteration of `main`'s loop (`main.rs:199`). -/
inductive LoopEvent where
  | attemptCycle
  | logOutcome (ok : Bool)
  | sleepFixed (secs : Nat)
  | processExit
deriving DecidableEq, Repr

/-- Embeds one iteration of the `loop` in `main` (`main.rs:199-214`) as the
list of its observable events: run `send_pv_data` once; on `Ok` or `Err`
log the outcome and sleep the fixed `sleep_duration_secs`; a panic inside
the iteration (an unwrapped read failure) unwinds out of `main` and
terminates the process. -/
def tickTrace (s : Session) (sleepSecs : Nat) : List LoopEvent :=
  LoopEvent.attemptCycle ::
    match send_pv_data s with
    | Except.ok _ => [LoopEvent.logOutcome true, LoopEvent.sleepFixed sleepSecs]
    | Except.error Failure.err => [LoopEvent.logOutcome false, LoopEvent.sleepFixed sleepSecs]
    | Except.error Failure.panicked => [LoopEvent.processExit]

/-- A session answering the seven fixed registers of the cycle. -/
def mkSession (acp acs exp imp esf mp msf : List Nat) : Session where
  connectOk := true
  read := fun a _l =>
    if a = 40083 then some acp
    else if a = 40084 then some acs
    else if a = 40226 then some exp
    else if a = 40234 then some imp
    else if a = 40242 then some esf
    else if a = 40206 then some mp
    else if a = 40210 then some msf
    else none

/-- The session of the spec's end-to-end example: `ac_power=2000`,
`ac_power_sf=-1` (word 65535), `exported=5000`, `imported=3000`,
`energy_sf=0`, `meter_power=-1000` (word 64536), `meter_sf=0`. -/
def endToEndSession : Session :=
  mkSession [2000] [65535] [0, 5000] [0, 3000] [0] [64536] [0]

/-- A session that connects but whose every register read fails at the
transport layer. -/
def allReadsFailSession : Session where
  connectOk := true
  read := fun _ _ => none

/-- A session whose TCP connection attempt itself fails. -/
def noConnectSession : Session where
  connectOk := false
  read := fun _ _ => none

/-- A session returning `ac_power = 2000` with the extreme (but
device-expressible) scale exponent `309`, whose scaled value overflows
every finite `f64`. -/
def overflowSession : Session :=
  mkSession [2000] [309] [0, 0] [0, 0] [0] [0] [0]

/-- The exact snapshot the cycle computes for `overflowSession`. -/
def overflowMeters : SiteMeters :=
  { consumption_kw := 2 * 10 ^ 309
    net_import_kw := 0
    production_kw := 2 * 10 ^ 309
    exported_kwh := 0
    imported_kwh := 0 }

/-- A session whose meter-power register reads `mw` and meter scale-factor
register reads `sfw`, all other registers zero. -/
def meterSession (mw sfw : Nat) : Session :=
  mkSession [0] [0] [0, 0] [0, 0] [0] [mw] [sfw]

/-- The `net_import_kw` field of the snapshot of one cycle, when the cycle
succeeds. -/
def netImportOf (s : Session) : Option ℚ :=
  match send_pv_data s with
  | Except.ok m => some m.net_import_kw
  | Except.error _ => none

/-! ## Helper lemmas -/

theorem to_be_bytes_nil : to_be_bytes [] = [] := rfl

theorem to_be_bytes_cons (w : Nat) (ws : List Nat) :
    to_be_bytes (w :: ws) = w / 256 % 256 :: w % 256 :: to_be_bytes ws := rfl

theorem to_be_bytes_length (data : List Nat) :
    (to_be_bytes data).length = 2 * data.length := by
  induction data with
  | nil => rfl
  | cons w ws ih =>
    rw [to_be_bytes_cons]
    simp only [List.length_cons, ih]
    omega

theorem utf8DecodeAux_nil (fuel : Nat) : utf8DecodeAux fuel [] = some [] := by
  cases fuel <;> rfl

theorem utf8DecodeAux_zero (b : Nat) (rest : List Nat) :
    utf8DecodeAux 0 (b :: rest) = none := rfl

theorem utf8DecodeAux_succ (fuel b : Nat) (rest : List Nat) :
    utf8DecodeAux (fuel + 1) (b :: rest) =
    (if b < 0x80 then
      (utf8DecodeAux fuel rest).map fun cs => b :: cs
    else if b < 0xC2 then none
    else if b < 0xE0 then
      match rest with
      | b2 :: r =>
        if 0x80 ≤ b2 ∧ b2 < 0xC0 then
          (utf8DecodeAux fuel r).map fun cs => ((b - 0xC0) * 0x40 + (b2 - 0x80)) :: cs
        else none
      | [] => none
    else if b < 0xF0 then
      match rest with
      | b2 :: b3 :: r =>
        if (lo3 b ≤ b2 ∧ b2 < hi3 b) ∧ (0x80 ≤ b3 ∧ b3 < 0xC0) then
          (utf8DecodeAux fuel r).map fun cs =>
            ((b - 0xE0) * 0x1000 + (b2 - 0x80) * 0x40 + (b3 - 0x80)) :: cs
        else none
      | _ => none
    else if b < 0xF5 then
      match rest with
      | b2 :: b3 :: b4 :: r =>
        if (lo4 b ≤ b2 ∧ b2 < hi4 b) ∧ (0x80 ≤ b3 ∧ b3 < 0xC0) ∧ (0x80 ≤ b4 ∧ b4 < 0xC0) then
          (utf8DecodeAux fuel r).map fun cs =>
            ((b - 0xF0) * 0x40000 + (b2 - 0x80) * 0x1000 + (b3 - 0x80) * 0x40 + (b4 - 0x80)) :: cs
        else none
      | _ => none
    else none) := rfl
set_option maxRecDepth 8000 in
theorem utf8DecodeAux_sound :
    ∀ fuel bs cs, utf8DecodeAux fuel bs = some cs →
      (∀ c ∈ cs, IsScalar c) ∧ (cs.map utf8EncodeChar).flatten = bs := by
  intro fuel
  induction fuel with
  | zero =>
    intro bs cs h
    match bs with
    | [] =>
      rw [utf8DecodeAux_nil] at h
      injection h with h
      subst h
      simp
    | b :: rest =>
      rw [utf8DecodeAux_zero] at h
      exact absurd h (by simp)
  | succ n ih =>
    intro bs cs h
    match bs with
    | [] =>
      rw [utf8DecodeAux_nil] at h
      injection h with h
      subst h
      simp
    | b :: rest =>
      rw [utf8DecodeAux_succ] at h
      by_cases h1 : b < 0x80
      · rw [if_pos h1] at h
        cases hr : utf8DecodeAux n rest with
        | none => rw [hr] at h; simp at h
        | some cs' =>
          rw [hr] at h
          simp only [Option.map_some', Option.some.injEq] at h
          subst h
          obtain ⟨hsc, hfl⟩ := ih rest cs' hr
          refine ⟨?_, ?_⟩
          · intro c hc
            rcases List.mem_cons.mp hc with hc | hc
            · subst hc; exact ⟨by omega, Or.inl (by omega)⟩
            · exact hsc c hc
          · simp only [List.map_cons, List.flatten_cons, hfl]
            have he : utf8EncodeChar b = [b] := by rw [utf8EncodeChar, if_pos h1]
            rw [he]; rfl
      · rw [if_neg h1] at h
        by_cases h2 : b < 0xC2
        · rw [if_pos h2] at h; simp at h
        · rw [if_neg h2] at h
          by_cases h3 : b < 0xE0
          · rw [if_pos h3] at h
            match rest with
            | [] => exact Option.noConfusion h
            | b2 :: r =>
              replace h : (if 0x80 ≤ b2 ∧ b2 < 0xC0 then
                  (utf8DecodeAux n r).map fun cs => ((b - 0xC0) * 0x40 + (b2 - 0x80)) :: cs
                else none) = some cs := h
              by_cases hg : 0x80 ≤ b2 ∧ b2 < 0xC0
              · rw [if_pos hg] at h
                cases hr : utf8DecodeAux n r with
                | none => rw [hr] at h; simp at h
                | some cs' =>
                  rw [hr] at h
                  simp only [Option.map_some', Option.some.injEq] at h
                  subst h
                  obtain ⟨hsc, hfl⟩ := ih r cs' hr
                  refine ⟨?_, ?_⟩
                  · intro c hc
                    rcases List.mem_cons.mp hc with hc | hc
                    · subst hc; exact ⟨by omega, Or.inl (by omega)⟩
                    · exact hsc c hc
                  · simp only [List.map_cons, List.flatten_cons, hfl]
                    have he : utf8EncodeChar ((b - 0xC0) * 0x40 + (b2 - 0x80)) = [b, b2] := by
                      rw [utf8EncodeChar, if_neg (by omega), if_pos (by omega)]
                      have e1 : 0xC0 + ((b - 0xC0) * 0x40 + (b2 - 0x80)) / 0x40 = b := by omega
                      have e2 : 0x80 + ((b - 0xC0) * 0x40 + (b2 - 0x80)) % 0x40 = b2 := by omega
                      rw [e1, e2]
                    rw [he]; rfl
              · rw [if_neg hg] at h; simp at h
          · rw [if_neg h3] at h
            by_cases h4 : b < 0xF0
            · rw [if_pos h4] at h
              match rest with
              | [] => exact Option.noConfusion h
              | [b2] => exact Option.noConfusion h
              | b2 :: b3 :: r =>
                replace h : (if (lo3 b ≤ b2 ∧ b2 < hi3 b) ∧ (0x80 ≤ b3 ∧ b3 < 0xC0) then
                    (utf8DecodeAux n r).map fun cs =>
                      ((b - 0xE0) * 0x1000 + (b2 - 0x80) * 0x40 + (b3 - 0x80)) :: cs
                  else none) = some cs := h
                by_cases hg : (lo3 b ≤ b2 ∧ b2 < hi3 b) ∧ (0x80 ≤ b3 ∧ b3 < 0xC0)
                · rw [if_pos hg] at h
                  cases hr : utf8DecodeAux n r with
                  | none => rw [hr] at h; simp at h
                  | some cs' =>
                    rw [hr] at h
                    simp only [Option.map_some', Option.some.injEq] at h
                    subst h
                    obtain ⟨hsc, hfl⟩ := ih r cs' hr
                    obtain ⟨⟨hb2l, hb2h⟩, hb3l, hb3h⟩ := hg
                    rw [lo3] at hb2l
                    rw [hi3] at hb2h
                    have hb2l' : 0x80 ≤ b2 := by split at hb2l <;> omega
                    have hb2h' : b2 < 0xC0 := by split at hb2h <;> omega
                    have hrange : 0x800 ≤ (b - 0xE0) * 0x1000 + (b2 - 0x80) * 0x40 + (b3 - 0x80) ∧
                        (b - 0xE0) * 0x1000 + (b2 - 0x80) * 0x40 + (b3 - 0x80) < 0x10000 ∧
                        ((b - 0xE0) * 0x1000 + (b2 - 0x80) * 0x40 + (b3 - 0x80) < 0xD800 ∨
                          0xE000 ≤ (b - 0xE0) * 0x1000 + (b2 - 0x80) * 0x40 + (b3 - 0x80)) := by
                      split at hb2l <;> split at hb2h <;> omega
                    refine ⟨?_, ?_⟩
                    · intro c hc
                      rcases List.mem_cons.mp hc with hc | hc
                      · subst hc; exact ⟨by omega, by omega⟩
                      · exact hsc c hc
                    · simp only [List.map_cons, List.flatten_cons, hfl]
                      have he : utf8EncodeChar ((b - 0xE0) * 0x1000 + (b2 - 0x80) * 0x40 + (b3 - 0x80)) =
                          [b, b2, b3] := by
                        rw [utf8EncodeChar, if_neg (by omega), if_neg (by omega), if_pos (by omega)]
                        have e1 : 0xE0 + ((b - 0xE0) * 0x1000 + (b2 - 0x80) * 0x40 + (b3 - 0x80)) / 0x1000 = b := by
                          omega
                        have e2 : 0x80 + ((b - 0xE0) * 0x1000 + (b2 - 0x80) * 0x40 + (b3 - 0x80)) / 0x40 % 0x40 = b2 := by
                          omega
                        have e3 : 0x80 + ((b - 0xE0) * 0x1000 + (b2 - 0x80) * 0x40 + (b3 - 0x80)) % 0x40 = b3 := by
                          omega
                        rw [e1, e2, e3]
                      rw [he]; rfl
                · rw [if_neg hg] at h; simp at h
            · rw [if_neg h4] at h
              by_cases h5 : b < 0xF5
              · rw [if_pos h5] at h
                match rest with
                | [] => exact Option.noConfusion h
                | [b2] => exact Option.noConfusion h
                | [b2, b3] => exact Option.noConfusion h
                | b2 :: b3 :: b4 :: r =>
                  replace h : (if (lo4 b ≤ b2 ∧ b2 < hi4 b) ∧ (0x80 ≤ b3 ∧ b3 < 0xC0) ∧ (0x80 ≤ b4 ∧ b4 < 0xC0) then
                      (utf8DecodeAux n r).map fun cs =>
                        ((b - 0xF0) * 0x40000 + (b2 - 0x80) * 0x1000 + (b3 - 0x80) * 0x40 + (b4 - 0x80)) :: cs
                    else none) = some cs := h
                  by_cases hg : (lo4 b ≤ b2 ∧ b2 < hi4 b) ∧ (0x80 ≤ b3 ∧ b3 < 0xC0) ∧ (0x80 ≤ b4 ∧ b4 < 0xC0)
                  · rw [if_pos hg] at h
                    cases hr : utf8DecodeAux n r with
                    | none => rw [hr] at h; simp at h
                    | some cs' =>
                      rw [hr] at h
                      simp only [Option.map_some', Option.some.injEq] at h
                      subst h
                      obtain ⟨hsc, hfl⟩ := ih r cs' hr
                      obtain ⟨⟨hb2l, hb2h⟩, ⟨hb3l, hb3h⟩, hb4l, hb4h⟩ := hg
                      rw [lo4] at hb2l
                      rw [hi4] at hb2h
                      have hb2l' : 0x80 ≤ b2 := by split at hb2l <;> omega
                      have hb2h' : b2 < 0xC0 := by split at hb2h <;> omega
                      have hrange : 0x10000 ≤ (b - 0xF0) * 0x40000 + (b2 - 0x80) * 0x1000 + (b3 - 0x80) * 0x40 + (b4 - 0x80) ∧
                          (b - 0xF0) * 0x40000 + (b2 - 0x80) * 0x1000 + (b3 - 0x80) * 0x40 + (b4 - 0x80) < 0x110000 := by
                        split at hb2l <;> split at hb2h <;> omega
                      refine ⟨?_, ?_⟩
                      · intro c hc
                        rcases List.mem_cons.mp hc with hc | hc
                        · subst hc; exact ⟨by omega, by omega⟩
                        · exact hsc c hc
                      · simp only [List.map_cons, List.flatten_cons, hfl]
                        have he : utf8EncodeChar ((b - 0xF0) * 0x40000 + (b2 - 0x80) * 0x1000 + (b3 - 0x80) * 0x40 + (b4 - 0x80)) =
                            [b, b2, b3, b4] := by
                          rw [utf8EncodeChar, if_neg (by omega), if_neg (by omega), if_neg (by omega)]
                          have e1 : 0xF0 + ((b - 0xF0) * 0x40000 + (b2 - 0x80) * 0x1000 + (b3 - 0x80) * 0x40 + (b4 - 0x80)) / 0x40000 = b := by
                            omega
                          have e2 : 0x80 + ((b - 0xF0) * 0x40000 + (b2 - 0x80) * 0x1000 + (b3 - 0x80) * 0x40 + (b4 - 0x80)) / 0x1000 % 0x40 = b2 := by
                            omega
                          have e3 : 0x80 + ((b - 0xF0) * 0x40000 + (b2 - 0x80) * 0x1000 + (b3 - 0x80) * 0x40 + (b4 - 0x80)) / 0x40 % 0x40 = b3 := by
                            omega
                          have e4 : 0x80 + ((b - 0xF0) * 0x40000 + (b2 - 0x80) * 0x1000 + (b3 - 0x80) * 0x40 + (b4 - 0x80)) % 0x40 = b4 := by
                            omega
                          rw [e1, e2, e3, e4]
                        rw [he]; rfl
                  · rw [if_neg hg] at h; simp at h
              · rw [if_neg h5] at h; simp at h

set_option maxRecDepth 8000 in
theorem utf8DecodeAux_complete :
    ∀ fuel cs, (∀ c ∈ cs, IsScalar c) →
      ((cs.map utf8EncodeChar).flatten).length ≤ fuel →
      utf8DecodeAux fuel ((cs.map utf8EncodeChar).flatten) = some cs := by
  intro fuel
  induction fuel with
  | zero =>
    intro cs hsc hlen
    match cs with
    | [] => simp [utf8DecodeAux_nil]
    | c :: cs' =>
      exfalso
      have h1 : 1 ≤ (utf8EncodeChar c).length := by
        rw [utf8EncodeChar]
        split
        · simp
        · split
          · simp
          · split <;> simp
      simp only [List.map_cons, List.flatten_cons, List.length_append] at hlen
      omega
  | succ n ih =>
    intro cs hsc hlen
    match cs with
    | [] => simp [utf8DecodeAux_nil]
    | c :: cs' =>
      have hc : IsScalar c := hsc c (List.mem_cons_self c cs')
      have hsc' : ∀ x ∈ cs', IsScalar x := fun x hx => hsc x (List.mem_cons_of_mem _ hx)
      obtain ⟨hlt, hsur⟩ := hc
      simp only [List.map_cons, List.flatten_cons] at hlen ⊢
      by_cases hc1 : c < 0x80
      · have henc : utf8EncodeChar c = [c] := by rw [utf8EncodeChar, if_pos hc1]
        rw [henc] at hlen ⊢
        have hrl : ((cs'.map utf8EncodeChar).flatten).length ≤ n := by
          simp only [List.length_append, List.length_cons, List.length_nil] at hlen
          omega
        rw [List.singleton_append, utf8DecodeAux_succ, if_pos hc1, ih cs' hsc' hrl]
        rfl
      · by_cases hc2 : c < 0x800
        · have henc : utf8EncodeChar c = [0xC0 + c / 0x40, 0x80 + c % 0x40] := by
            rw [utf8EncodeChar, if_neg hc1, if_pos hc2]
          rw [henc] at hlen ⊢
          have hrl : ((cs'.map utf8EncodeChar).flatten).length ≤ n := by
            simp only [List.length_append, List.length_cons, List.length_nil] at hlen
            omega
          rw [List.cons_append, List.cons_append, List.nil_append]
          rw [utf8DecodeAux_succ, if_neg (by omega), if_neg (by omega), if_pos (by omega)]
          show (if 0x80 ≤ 0x80 + c % 0x40 ∧ 0x80 + c % 0x40 < 0xC0 then
              (utf8DecodeAux n ((cs'.map utf8EncodeChar).flatten)).map fun cs =>
                ((0xC0 + c / 0x40 - 0xC0) * 0x40 + (0x80 + c % 0x40 - 0x80)) :: cs
            else none) = some (c :: cs')
          rw [if_pos (by omega), ih cs' hsc' hrl]
          simp only [Option.map_some']
          have e : (0xC0 + c / 0x40 - 0xC0) * 0x40 + (0x80 + c % 0x40 - 0x80) = c := by omega
          rw [e]
        · by_cases hc3 : c < 0x10000
          · have henc : utf8EncodeChar c =
                [0xE0 + c / 0x1000, 0x80 + c / 0x40 % 0x40, 0x80 + c % 0x40] := by
              rw [utf8EncodeChar, if_neg hc1, if_neg hc2, if_pos hc3]
            rw [henc] at hlen ⊢
            have hrl : ((cs'.map utf8EncodeChar).flatten).length ≤ n := by
              simp only [List.length_append, List.length_cons, List.length_nil] at hlen
              omega
            rw [List.cons_append, List.cons_append, List.cons_append, List.nil_append]
            rw [utf8DecodeAux_succ, if_neg (by omega), if_neg (by omega), if_neg (by omega),
              if_pos (by omega)]
            show (if (lo3 (0xE0 + c / 0x1000) ≤ 0x80 + c / 0x40 % 0x40 ∧
                    0x80 + c / 0x40 % 0x40 < hi3 (0xE0 + c / 0x1000)) ∧
                  (0x80 ≤ 0x80 + c % 0x40 ∧ 0x80 + c % 0x40 < 0xC0) then
                (utf8DecodeAux n ((cs'.map utf8EncodeChar).flatten)).map fun cs =>
                  ((0xE0 + c / 0x1000 - 0xE0) * 0x1000 +
                    (0x80 + c / 0x40 % 0x40 - 0x80) * 0x40 + (0x80 + c % 0x40 - 0x80)) :: cs
              else none) = some (c :: cs')
            have hguard : (lo3 (0xE0 + c / 0x1000) ≤ 0x80 + c / 0x40 % 0x40 ∧
                0x80 + c / 0x40 % 0x40 < hi3 (0xE0 + c / 0x1000)) ∧
                (0x80 ≤ 0x80 + c % 0x40 ∧ 0x80 + c % 0x40 < 0xC0) := by
              refine ⟨⟨?_, ?_⟩, by omega, by omega⟩
              · rw [lo3]
                split <;> omega
              · rw [hi3]
                split
                · rcases hsur with h | h <;> omega
                · omega
            rw [if_pos hguard, ih cs' hsc' hrl]
            simp only [Option.map_some']
            have e : (0xE0 + c / 0x1000 - 0xE0) * 0x1000 +
                (0x80 + c / 0x40 % 0x40 - 0x80) * 0x40 + (0x80 + c % 0x40 - 0x80) = c := by omega
            rw [e]
          · have henc : utf8EncodeChar c =
                [0xF0 + c / 0x40000, 0x80 + c / 0x1000 % 0x40, 0x80 + c / 0x40 % 0x40,
                  0x80 + c % 0x40] := by
              rw [utf8EncodeChar, if_neg hc1, if_neg hc2, if_neg hc3]
            rw [henc] at hlen ⊢
            have hrl : ((cs'.map utf8EncodeChar).flatten).length ≤ n := by
              simp only [List.length_append, List.length_cons, List.length_nil] at hlen
              omega
            rw [List.cons_append, List.cons_append, List.cons_append, List.cons_append,
              List.nil_append]
            rw [utf8DecodeAux_succ, if_neg (by omega), if_neg (by omega), if_neg (by omega),
              if_neg (by omega), if_pos (by omega)]
            show (if (lo4 (0xF0 + c / 0x40000) ≤ 0x80 + c / 0x1000 % 0x40 ∧
                    0x80 + c / 0x1000 % 0x40 < hi4 (0xF0 + c / 0x40000)) ∧
                  (0x80 ≤ 0x80 + c / 0x40 % 0x40 ∧ 0x80 + c / 0x40 % 0x40 < 0xC0) ∧
                  (0x80 ≤ 0x80 + c % 0x40 ∧ 0x80 + c % 0x40 < 0xC0) then
                (utf8DecodeAux n ((cs'.map utf8EncodeChar).flatten)).map fun cs =>
                  ((0xF0 + c / 0x40000 - 0xF0) * 0x40000 +
                    (0x80 + c / 0x1000 % 0x40 - 0x80) * 0x1000 +
                    (0x80 + c / 0x40 % 0x40 - 0x80) * 0x40 + (0x80 + c % 0x40 - 0x80)) :: cs
              else none) = some (c :: cs')
            have hguard : (lo4 (0xF0 + c / 0x40000) ≤ 0x80 + c / 0x1000 % 0x40 ∧
                0x80 + c / 0x1000 % 0x40 < hi4 (0xF0 + c / 0x40000)) ∧
                (0x80 ≤ 0x80 + c / 0x40 % 0x40 ∧ 0x80 + c / 0x40 % 0x40 < 0xC0) ∧
                (0x80 ≤ 0x80 + c % 0x40 ∧ 0x80 + c % 0x40 < 0xC0) := by
              refine ⟨⟨?_, ?_⟩, ⟨by omega, by omega⟩, by omega, by omega⟩
              · rw [lo4]
                split <;> omega
              · rw [hi4]
                split <;> omega
            rw [if_pos hguard, ih cs' hsc' hrl]
            simp only [Option.map_some']
            have e : (0xF0 + c / 0x40000 - 0xF0) * 0x40000 +
                (0x80 + c / 0x1000 % 0x40 - 0x80) * 0x1000 +
                (0x80 + c / 0x40 % 0x40 - 0x80) * 0x40 + (0x80 + c % 0x40 - 0x80) = c := by omega
            rw [e]

theorem utf8Decode_none_iff (bs : List Nat) :
    utf8Decode bs = none ↔ ¬ ValidUtf8 bs := by
  constructor
  · intro h hval
    obtain ⟨cs, hsc, henc⟩ := hval
    have hc := utf8DecodeAux_complete bs.length cs hsc (by rw [henc])
    rw [henc] at hc
    rw [utf8Decode] at h
    rw [h] at hc
    exact Option.noConfusion hc
  · intro h
    cases heq : utf8Decode bs with
    | none => rfl
    | some cs =>
      rw [utf8Decode] at heq
      obtain ⟨hsc, henc⟩ := utf8DecodeAux_sound bs.length bs cs heq
      exact absurd ⟨cs, hsc, henc⟩ h

theorem read_i16_ok_isSome {s : Session} {a l : Nat} {v : Int}
    (h : read_register_i16 s a l = Except.ok v) : (s.read a l).isSome := by
  rw [read_register_i16] at h
  cases hr : s.read a l with
  | none => rw [hr] at h; exact Except.noConfusion h
  | some data => rfl

theorem read_u32_ok_isSome {s : Session} {a l : Nat} {v : Nat}
    (h : read_register_u32 s a l = Except.ok v) : (s.read a l).isSome := by
  rw [read_register_u32] at h
  cases hr : s.read a l with
  | none => rw [hr] at h; exact Except.noConfusion h
  | some data => rfl

theorem send_pv_data_ok_anatomy (s : Session) (m : SiteMeters)
    (h : send_pv_data s = Except.ok m) :
    m.consumption_kw = m.production_kw + m.net_import_kw ∧
    s.connectOk = true ∧
    (s.read 40083 1).isSome ∧ (s.read 40084 1).isSome ∧ (s.read 40226 2).isSome ∧
    (s.read 40234 2).isSome ∧ (s.read 40242 1).isSome ∧ (s.read 40206 1).isSome ∧
    (s.read 40210 1).isSome := by
  rw [send_pv_data] at h
  by_cases hc : s.connectOk
  · rw [if_pos hc] at h
    cases h1 : read_register_i16 s 40083 1 with
    | error e => simp only [h1] at h; exact Except.noConfusion h
    | ok v1 =>
      simp only [h1] at h
      cases h2 : read_register_i16 s 40084 1 with
      | error e => simp only [h2] at h; exact Except.noConfusion h
      | ok v2 =>
        simp only [h2] at h
        cases h3 : read_register_u32 s 40226 2 with
        | error e => simp only [h3] at h; exact Except.noConfusion h
        | ok v3 =>
          simp only [h3] at h
          cases h4 : read_register_u32 s 40234 2 with
          | error e => simp only [h4] at h; exact Except.noConfusion h
          | ok v4 =>
            simp only [h4] at h
            cases h5 : read_register_i16 s 40242 1 with
            | error e => simp only [h5] at h; exact Except.noConfusion h
            | ok v5 =>
              simp only [h5] at h
              cases h6 : read_register_i16 s 40206 1 with
              | error e => simp only [h6] at h; exact Except.noConfusion h
              | ok v6 =>
                simp only [h6] at h
                cases h7 : read_register_i16 s 40210 1 with
                | error e => simp only [h7] at h; exact Except.noConfusion h
                | ok v7 =>
                  simp only [h7, Except.ok.injEq] at h
                  subst h
                  exact ⟨rfl, hc, read_i16_ok_isSome h1, read_i16_ok_isSome h2,
                    read_u32_ok_isSome h3, read_u32_ok_isSome h4, read_i16_ok_isSome h5,
                    read_i16_ok_isSome h6, read_i16_ok_isSome h7⟩
  · rw [if_neg hc] at h
    exact Except.noConfusion h

theorem decodeU32_len_ne_two (data : List Nat) (h : data.length ≠ 2) :
    decodeU32 data = none := by
  match data with
  | [] => rfl
  | [w] => rfl
  | [w1, w2] => exact absurd rfl h
  | w1 :: w2 :: w3 :: rest => rfl

theorem fromBePairs_cons (b1 b2 : Nat) (rest : List Nat) :
    fromBePairs (b1 :: b2 :: rest) = (b1 * 256 + b2) :: fromBePairs rest := rfl

theorem fromBePairs_to_be_bytes :
    ∀ ws : List Nat, (∀ w ∈ ws, w < 65536) → fromBePairs (to_be_bytes ws) = ws := by
  intro ws
  induction ws with
  | nil => intro _; rfl
  | cons w ws ih =>
    intro hws
    rw [to_be_bytes_cons, fromBePairs_cons]
    have hw : w < 65536 := hws w (List.mem_cons_self w ws)
    have e : w / 256 % 256 * 256 + w % 256 = w := by omega
    rw [e, ih fun x hx => hws x (List.mem_cons_of_mem _ hx)]

/-! ## Claim theorems -/

/-- C1: one polling cycle whose register reads return `ac_power = 2000`,
`ac_power_sf = -1`, `exported = 5000`, `imported = 3000`, `energy_sf = 0`,
`meter_power = -1000`, `meter_sf = 0` produces exactly the snapshot with
`production_kw = 0.2`, `net_import_kw = 1.0`, `consumption_kw = 1.2`,
`exported_kwh = 5.0`, `imported_kwh = 3.0`: the scale factor is applied as
a power of ten, the result divided by 1000, and consumption is the sum of
production and net import. -/
theorem end_to_end_snapshot :
    send_pv_data endToEndSession =
      Except.ok
        { consumption_kw := 1.2, net_import_kw := 1, production_kw := 0.2,
          exported_kwh := 5, imported_kwh := 3 } := by
  simp only [send_pv_data, endToEndSession, mkSession, read_register_i16, read_register_u32,
    decodeI16, decodeU32, to_be_bytes, toI16]
  norm_num

/-- C5: for every sequence of 16-bit words, the word-to-byte codec
produces exactly `2N` bytes, each word contributing its two bytes
big-endian in word order, and re-pairing consecutive bytes big-endian
reconstructs the original word sequence exactly (round-trip law); the
codec is a pure total function with no failure path. -/
theorem byte_codec_round_trip :
    ∀ ws : List Nat, (∀ w ∈ ws, w < 65536) →
      (to_be_bytes ws).length = 2 * ws.length ∧ fromBePairs (to_be_bytes ws) = ws :=
  fun ws h => ⟨to_be_bytes_length ws, fromBePairs_to_be_bytes ws h⟩

theorem byte_codec_round_trip_witness :
    (∀ w ∈ ([4660, 43981] : List Nat), w < 65536) ∧
    ((to_be_bytes [4660, 43981]).length = 2 * ([4660, 43981] : List Nat).length ∧
      fromBePairs (to_be_bytes [4660, 43981]) = [4660, 43981]) :=
  ⟨by decide, byte_codec_round_trip [4660, 43981] (by decide)⟩

/-- C7: on every non-empty word sequence the signed-16 decoder returns the
two's-complement reinterpretation of the first word — a value congruent to
the word modulo 2^16 lying in `[-32768, 32768)` — and ignores all words
beyond the first; decoding `[0xFFFF]` yields `-1` and `[0x7FFF]` yields
`32767`. -/
theorem signed16_twos_complement :
    (∀ (w : Nat) (ws : List Nat), w < 65536 →
      ∃ v, decodeI16 (w :: ws) = some v ∧ v % 65536 = (w : Int) ∧
        -32768 ≤ v ∧ v < 32768 ∧ decodeI16 (w :: ws) = decodeI16 [w]) ∧
    decodeI16 [0xFFFF] = some (-1) ∧ decodeI16 [0x7FFF] = some 32767 := by
  refine ⟨?_, by decide, by decide⟩
  intro w ws hw
  refine ⟨toI16 w, rfl, ?_, ?_, ?_, rfl⟩ <;> (rw [toI16]; split <;> omega)

theorem signed16_twos_complement_witness :
    (4660 : Nat) < 65536 ∧
    ∃ v, decodeI16 [4660, 7] = some v ∧ v % 65536 = (4660 : Int) ∧
      -32768 ≤ v ∧ v < 32768 ∧ decodeI16 [4660, 7] = decodeI16 [4660] :=
  ⟨by decide, signed16_twos_complement.1 4660 [7] (by decide)⟩

set_option maxRecDepth 4000 in
/-- C8: the unsigned-32 decoder reassembles exactly 2 words through the
4-byte big-endian expansion — `[0x0001, 0x0000]` decodes to `65536` and
`[0x0000, 0x0001]` to `1` — and whenever fewer than 4 bytes are available
it fails, fatally (the reader panics) rather than recoverably. -/
theorem unsigned32_big_endian :
    decodeU32 [1, 0] = some 65536 ∧
    decodeU32 [0, 1] = some 1 ∧
    (∀ data : List Nat, (to_be_bytes data).length < 4 → decodeU32 data = none) ∧
    (∀ w1 w2 : Nat, w1 < 65536 → w2 < 65536 → decodeU32 [w1, w2] = some (w1 * 65536 + w2)) ∧
    (∀ (s : Session) (a l : Nat) (ws : List Nat), s.read a l = some ws → ws.length ≠ 2 →
      read_register_u32 s a l = Except.error Failure.panicked) := by
  refine ⟨by decide, by decide, ?_, ?_, ?_⟩
  · intro data hlen
    have h2 := to_be_bytes_length data
    exact decodeU32_len_ne_two data (by omega)
  · intro w1 w2 h1 h2
    show decodeU32 [w1, w2] = some (w1 * 65536 + w2)
    rw [decodeU32]
    rw [show to_be_bytes [w1, w2] = [w1 / 256 % 256, w1 % 256, w2 / 256 % 256, w2 % 256] from rfl]
    show some ((((w1 / 256 % 256) * 256 + w1 % 256) * 256 + w2 / 256 % 256) * 256 + w2 % 256) =
      some (w1 * 65536 + w2)
    congr 1
    omega
  · intro s a l ws hr hlen
    rw [read_register_u32]
    simp only [hr]
    simp only [decodeU32_len_ne_two ws hlen]

theorem unsigned32_big_endian_witness :
    (to_be_bytes [5]).length < 4 ∧ decodeU32 [5] = none ∧
    decodeU32 [3, 7] = some (3 * 65536 + 7) :=
  ⟨by decide, unsigned32_big_endian.2.2.1 [5] (by decide),
    unsigned32_big_endian.2.2.2.1 3 7 (by decide) (by decide)⟩

/-- C10: the signed-16 decoder is not total: on the empty word sequence it
fails (the out-of-bounds index `data[0]` has no value to return), and it
returns a value exactly when the input holds at least one word. -/
theorem signed16_partial_on_empty :
    decodeI16 [] = none ∧ ∀ ws : List Nat, ws ≠ [] → ∃ v, decodeI16 ws = some v := by
  refine ⟨rfl, ?_⟩
  intro ws h
  match ws with
  | [] => exact absurd rfl h
  | w :: rest => exact ⟨toI16 w, rfl⟩

theorem signed16_partial_on_empty_witness :
    ([7] : List Nat) ≠ [] ∧ ∃ v, decodeI16 [7] = some v :=
  ⟨by decide, signed16_partial_on_empty.2 [7] (by decide)⟩

/-- C2 counterexample: with a session whose reads all fail at the
transport layer, the register-read operation does not return an error
value — `read_register` unwraps the failed `Result`, so the failure
surfaces as a panic (process abort, `Failure.panicked`), not as a
returned error (`Failure.err`) of kind `ReadError::Transport`; the
spec-modelled reader `readSpecI16` shows what the claim asserts instead. -/
theorem read_failure_panics_cex :
    read_register_i16 allReadsFailSession 40083 1 = Except.error Failure.panicked ∧
    (Except.error Failure.panicked : Except Failure Int) ≠ Except.error Failure.err ∧
    send_pv_data allReadsFailSession = Except.error Failure.panicked ∧
    readSpecI16 allReadsFailSession 40083 1 = Except.error ReadError.transport :=
  ⟨rfl, by decide, rfl, rfl⟩

/-- C2 (amended): a transport failure on any of the cycle's seven register
reads means the cycle produces no snapshot — no partial `SiteMeters` is
ever observable — but the read propagates the failure as a panic (the
`Result` is unwrapped, aborting the task), not as a returned
`Result<T, ReadError>` error value. -/
theorem read_failure_no_snapshot :
    (∀ s : Session,
      (s.read 40083 1 = none ∨ s.read 40084 1 = none ∨ s.read 40226 2 = none ∨
       s.read 40234 2 = none ∨ s.read 40242 1 = none ∨ s.read 40206 1 = none ∨
       s.read 40210 1 = none) →
      ∀ m : SiteMeters, send_pv_data s ≠ Except.ok m) ∧
    (∀ (s : Session) (a l : Nat), s.read a l = none →
      read_register_i16 s a l = Except.error Failure.panicked ∧
      read_register_u32 s a l = Except.error Failure.panicked) := by
  constructor
  · intro s hd m hok
    obtain ⟨-, -, r1, r2, r3, r4, r5, r6, r7⟩ := send_pv_data_ok_anatomy s m hok
    rcases hd with h | h | h | h | h | h | h <;> simp_all
  · intro s a l hr
    constructor
    · rw [read_register_i16]
      simp only [hr]
    · rw [read_register_u32]
      simp only [hr]

theorem read_failure_no_snapshot_witness :
    send_pv_data allReadsFailSession ≠
      Except.ok { consumption_kw := 0, net_import_kw := 0, production_kw := 0,
                  exported_kwh := 0, imported_kwh := 0 } ∧
    read_register_i16 allReadsFailSession 40083 1 = Except.error Failure.panicked :=
  ⟨read_failure_no_snapshot.1 allReadsFailSession (Or.inl rfl) _,
    (read_failure_no_snapshot.2 allReadsFailSession 40083 1 rfl).1⟩

/-- C3 counterexample: with a session whose every read fails, one tick of
`main`'s loop attempts the aggregation cycle exactly once — not the
claimed maximum of 5 attempts with Fibonacci-shaped delays — and the
unwrapped read failure terminates the process instead of being reported
as exhaustion. -/
theorem fibonacci_retry_cex :
    (tickTrace allReadsFailSession 35).count LoopEvent.attemptCycle = 1 ∧
    (tickTrace allReadsFailSession 35).count LoopEvent.attemptCycle ≠ 5 ∧
    tickTrace allReadsFailSession 35 = [LoopEvent.attemptCycle, LoopEvent.processExit] := by
  refine ⟨?_, ?_, ?_⟩ <;> decide

/-- C3 (amended): one tick of `main`'s loop attempts the cycle exactly
once — there is no bounded retry, no Fibonacci backoff and no jitter.  A
recoverable failure (failed TCP connect) is logged and the loop sleeps
the fixed configured duration before the next tick; a failed register
read panics and terminates the process. -/
theorem single_attempt_per_tick :
    ∀ (s : Session) (d : Nat),
      (tickTrace s d).count LoopEvent.attemptCycle = 1 ∧
      (send_pv_data s = Except.error Failure.err →
        tickTrace s d =
          [LoopEvent.attemptCycle, LoopEvent.logOutcome false, LoopEvent.sleepFixed d]) ∧
      (send_pv_data s = Except.error Failure.panicked →
        tickTrace s d = [LoopEvent.attemptCycle, LoopEvent.processExit]) ∧
      (∀ m, send_pv_data s = Except.ok m →
        tickTrace s d =
          [LoopEvent.attemptCycle, LoopEvent.logOutcome true, LoopEvent.sleepFixed d]) := by
  intro s d
  refine ⟨?_, ?_, ?_, ?_⟩
  · rw [tickTrace]
    cases hr : send_pv_data s with
    | ok m => simp [List.count_cons]
    | error e => cases e <;> simp [List.count_cons]
  · intro h
    rw [tickTrace]
    simp only [h]
  · intro h
    rw [tickTrace]
    simp only [h]
  · intro m h
    rw [tickTrace]
    simp only [h]

theorem single_attempt_per_tick_witness :
    (tickTrace noConnectSession 35).count LoopEvent.attemptCycle = 1 ∧
    tickTrace noConnectSession 35 =
      [LoopEvent.attemptCycle, LoopEvent.logOutcome false, LoopEvent.sleepFixed 35] :=
  ⟨(single_attempt_per_tick noConnectSession 35).1,
    (single_attempt_per_tick noConnectSession 35).2.1 rfl⟩

/-- C4 counterexample: a successful cycle can produce a snapshot field
that no finite IEEE-754 double can hold: with `ac_power = 2000` and scale
exponent `309` the cycle succeeds and its `production_kw` exceeds the
largest finite binary64, so in the `f64` code it is `Infinity`, not
finite. -/
theorem snapshot_finite_cex :
    send_pv_data overflowSession = Except.ok overflowMeters ∧
    ¬ RepresentsFiniteF64 overflowMeters.production_kw := by
  constructor
  · simp only [send_pv_data, overflowSession, mkSession, read_register_i16, read_register_u32,
      decodeI16, decodeU32, to_be_bytes, toI16, overflowMeters]
    norm_num
  · rw [RepresentsFiniteF64, f64MaxFinite]
    rw [show overflowMeters.production_kw = 2 * 10 ^ 309 from rfl]
    rw [abs_of_nonneg (by positivity)]
    norm_num

/-- C4 (amended): the snapshot is produced atomically — a cycle either
succeeds with a complete, internally-consistent snapshot (all five fields
present, `consumption_kw = production_kw + net_import_kw`) or fails with
no snapshot at all; but the fields are not always finite: extreme scale
exponents overflow the finite `f64` range (see the counterexample), as
spec §4.4 itself notes. -/
theorem snapshot_atomic_consistent :
    ∀ s : Session,
      (∃ m, send_pv_data s = Except.ok m ∧
        m.consumption_kw = m.production_kw + m.net_import_kw) ∨
      ∀ m, send_pv_data s ≠ Except.ok m := by
  intro s
  cases h : send_pv_data s with
  | ok m => exact Or.inl ⟨m, rfl, (send_pv_data_ok_anatomy s m h).1⟩
  | error e => exact Or.inr fun m hm => Except.noConfusion hm

theorem snapshot_atomic_consistent_witness :
    (∃ m, send_pv_data endToEndSession = Except.ok m ∧
      m.consumption_kw = m.production_kw + m.net_import_kw) ∨
    ∀ m, send_pv_data endToEndSession ≠ Except.ok m :=
  snapshot_atomic_consistent endToEndSession

/-- C6: for every meter-power word and scale-exponent word, the cycle's
`net_import_kw` is the negation of the scaled reading divided by 1000
(import-positive convention); raw `500` at scale `0` yields `-0.5`, and
raw `-500` (word 65036) at scale `0` yields `0.5`. -/
theorem net_import_sign_convention :
    (∀ mw sfw : Nat,
      netImportOf (meterSession mw sfw) =
        some (-((toI16 mw : ℚ) * (10 : ℚ) ^ toI16 sfw) / 1000)) ∧
    netImportOf (meterSession 500 0) = some (-0.5) ∧
    netImportOf (meterSession 65036 0) = some 0.5 := by
  refine ⟨?_, ?_, ?_⟩
  · intro mw sfw
    simp only [netImportOf, send_pv_data, meterSession, mkSession, read_register_i16,
      read_register_u32, decodeI16, decodeU32, to_be_bytes,
      show toI16 0 = 0 from rfl]
    norm_num
  · simp only [netImportOf, send_pv_data, meterSession, mkSession, read_register_i16,
      read_register_u32, decodeI16, decodeU32, to_be_bytes, toI16]
    norm_num
  · simp only [netImportOf, send_pv_data, meterSession, mkSession, read_register_i16,
      read_register_u32, decodeI16, decodeU32, to_be_bytes, toI16]
    norm_num

theorem decodeString_none_iff (data : List Nat) :
    decodeString data = none ↔
      utf8Decode ((to_be_bytes data).filter fun b => b != 0) = none := by
  rw [decodeString]
  cases h : utf8Decode ((to_be_bytes data).filter fun b => b != 0) with
  | none => simp [h]
  | some cs => simp [h]

/-- C9: the packed-ASCII decoder discards every zero byte of the
big-endian byte expansion wherever it occurs and returns the remaining
bytes as UTF-8 text — `[0x4142, 0x0000]` decodes to `"AB"` (bytes
`[0x41, 0x42]`) — and it fails exactly when the remaining nonzero bytes
are not valid UTF-8. -/
theorem packed_ascii_decode :
    decodeString [0x4142, 0] = some [0x41, 0x42] ∧
    (∀ data : List Nat,
      decodeString data = none ↔ ¬ ValidUtf8 ((to_be_bytes data).filter fun b => b != 0)) ∧
    (∀ data s : List Nat, decodeString data = some s →
      s = (to_be_bytes data).filter fun b => b != 0) := by
  refine ⟨by decide, ?_, ?_⟩
  · intro data
    exact (decodeString_none_iff data).trans (utf8Decode_none_iff _)
  · intro data s h
    rw [decodeString] at h
    cases hu : utf8Decode ((to_be_bytes data).filter fun b => b != 0) with
    | none =>
      rw [hu] at h
      exact Option.noConfusion h
    | some cs =>
      simp only [hu, Option.some.injEq] at h
      exact h.symm

theorem packed_ascii_decode_witness :
    decodeString [16706, 0] = some [65, 66] ∧
    ([65, 66] : List Nat) = (to_be_bytes [16706, 0]).filter fun b => b != 0 :=
  ⟨by decide, packed_ascii_decode.2.2 [16706, 0] [65, 66] (by decide)⟩
